import Mathlib

/-!
# Verification of the rspack_cacheable serialization core

This development embeds the serialization framework of `crates/rspack_cacheable`
(`serialize.rs`, `deserialize.rs`, the adapters under `with/`) together with the
code generated by `crates/rspack_macros` (`cacheable.rs`, `cacheable_dyn.rs`).

The Rust code delegates the byte layout to the rkyv 0.7 library; here the
archived layout is embedded as an executable byte-list codec that keeps rkyv's
essential behaviour: values are written as plain little-endian records, strings
and byte vectors carry explicit length metadata, structural validation
(`check_archived_root`, mapped to `CheckBytesError` by `from_bytes`) performs
bounds checks on all metadata but does not checksum content bytes, skip-adapted
fields occupy zero bytes, and shared values are deduplicated through
address/offset keyed maps.  Everything specific to the repository — the error
enums, the context threading, the skip adapter, the `cacheable_dyn` registry,
the `(tag, bytes)` pairing, the `SharedSerializeRegistry` /
`SharedDeserializeRegistry` plumbing, the `PathBuf` string adapter — follows
the source files directly.
-/

deriving instance DecidableEq for Except

namespace RspackCacheable

/-- Mirrors `enum DeserializeError` in `deserialize.rs`: `CheckBytesError`
(structural validation failed) and `DuplicateSharedPointer` (a shared pointer
was added multiple times). -/
inductive DeserializeError where
  | CheckBytesError
  | DuplicateSharedPointer
deriving DecidableEq, Repr

/-- Mirrors `enum SerializeError` in `serialize.rs` (payloads elided: the
underlying rkyv error types carry no data relevant to the claims). -/
inductive SerializeError where
  | SerializerError
  | ScratchSpaceError
  | SharedError
deriving DecidableEq, Repr

/-- Models a Rust computation that may also panic (`expect` / `panic`),
distinguishing a typed `Result::Err` from a process abort. -/
inductive ROutcome (α : Type) where
  | ok (a : α)
  | err (e : DeserializeError)
  | panic (msg : String)
deriving DecidableEq, Repr

/-! ## Byte-level primitives

Bytes are modelled as `Nat` list entries; well-formed archives only contain
entries below 256.  A `u32` is stored as four little-endian bytes, matching
rkyv's archived integer layout. -/

/-- Write a `u32` as four little-endian bytes. -/
def writeU32 (n : Nat) : List Nat :=
  [n % 256, n / 256 % 256, n / 65536 % 256, n / 16777216 % 256]

/-- Read four little-endian bytes; too few bytes is a validation failure
(`check_archived_root` rejects undersized buffers). -/
def readU32 : List Nat → Except DeserializeError (Nat × List Nat)
  | b0 :: b1 :: b2 :: b3 :: rest =>
      .ok (b0 + 256 * b1 + 65536 * b2 + 16777216 * b3, rest)
  | _ => .error .CheckBytesError

/-- Read a length-delimited payload, bounds-checked against the remaining
buffer as rkyv's validator checks archived lengths. -/
def readBytes (n : Nat) (bs : List Nat) :
    Except DeserializeError (List Nat × List Nat) :=
  if n ≤ bs.length then .ok (bs.take n, bs.drop n)
  else .error .CheckBytesError

theorem readU32_writeU32 (n : Nat) (h : n < 4294967296) (rest : List Nat) :
    readU32 (writeU32 n ++ rest) = .ok (n, rest) := by
  simp only [writeU32, List.cons_append, List.nil_append, readU32, Except.ok.injEq,
    Prod.mk.injEq, and_true]
  omega

theorem readBytes_exact (s rest : List Nat) :
    readBytes s.length (s ++ rest) = .ok (s, rest) := by
  simp [readBytes, List.take_left, List.drop_left]

theorem writeU32_length (n : Nat) : (writeU32 n).length = 4 := rfl

/-! ## The value universe and its archived layout

The representative value shapes: archived `u32` integers, archived strings
(`ArchivedString`, as produced by the `AsString` / `AsRefStr` adapters),
archived byte vectors (`ArchivedVec<u8>`, as produced by the `AsDyn` adapter),
pairs/structs of fields, and fields bound to the skip adapter
(`SkipWithDeserialize` in `skip.rs`), which occupy zero archive bytes and are
rebuilt from the caller context. -/

inductive Ty where
  | u32
  | str
  | raw
  | pair (t1 t2 : Ty)
  | skip
deriving DecidableEq, Repr

inductive Val where
  | u32 (n : Nat)
  | str (s : List Nat)
  | raw (bs : List Nat)
  | pair (a b : Val)
  | skipVal (k : Nat)
deriving DecidableEq, Repr

/-- The caller-supplied context threaded through one (de)serialize call
(`&mut C` in `to_bytes` / `from_bytes`).  `skipValue` is what the
`SkipDeserialize` trait reconstructs a skip field from (`skip.rs`:
`F::deserialize(de.get_context())`). -/
structure Ctx where
  skipValue : Nat
deriving DecidableEq, Repr

/-- Shape agreement between an in-memory value and its declared type. -/
def hasTy : Val → Ty → Bool
  | .u32 _, .u32 => true
  | .str _, .str => true
  | .raw _, .raw => true
  | .pair a b, .pair t1 t2 => hasTy a t1 && hasTy b t2
  | .skipVal _, .skip => true
  | _, _ => false

/-- Machine-level well-formedness of an in-memory value: integers and lengths
fit in `u32`, byte entries are actual bytes. -/
def wfVal : Val → Bool
  | .u32 n => n < 4294967296
  | .str s => s.length < 4294967296 && s.all (· < 256)
  | .raw bs => bs.length < 4294967296 && bs.all (· < 256)
  | .pair a b => wfVal a && wfVal b
  | .skipVal _ => true

/-- The serializer engine's emission for one value (`serialize_value` walking
the value; rkyv layout with explicit length metadata).  A skip-adapted field
emits nothing: `SkipWithDeserialize::serialize_with` returns `Ok(())` and
`resolve_with` writes no bytes (`skip.rs` lines 17-27). -/
def encodeVal : Val → List Nat
  | .u32 n => writeU32 n
  | .str s => writeU32 s.length ++ s
  | .raw bs => writeU32 bs.length ++ bs
  | .pair a b => encodeVal a ++ encodeVal b
  | .skipVal _ => []

/-- The deserializer engine: validation (bounds checks on all structural
metadata, `CheckBytesError` on failure) fused with materialization.  A skip
field consumes no bytes and is produced solely from the context
(`SkipWithDeserialize::deserialize_with` calls `F::deserialize(de.get_context())`). -/
def decodeVal : Ty → Ctx → List Nat → Except DeserializeError (Val × List Nat)
  | .u32, _, bs => do
      let (n, rest) ← readU32 bs
      .ok (.u32 n, rest)
  | .str, _, bs => do
      let (n, r1) ← readU32 bs
      let (s, r2) ← readBytes n r1
      .ok (.str s, r2)
  | .raw, _, bs => do
      let (n, r1) ← readU32 bs
      let (d, r2) ← readBytes n r1
      .ok (.raw d, r2)
  | .pair t1 t2, ctx, bs => do
      let (a, r1) ← decodeVal t1 ctx bs
      let (b, r2) ← decodeVal t2 ctx r1
      .ok (.pair a b, r2)
  | .skip, ctx, bs => .ok (.skipVal ctx.skipValue, bs)

/-- `to_bytes` (`serialize.rs` lines 145-152): build a fresh serializer around
the caller context and emit the archive.  For the modelled shapes the
underlying `AlignedSerializer` writes are infallible, so the result is `Ok`. -/
def to_bytes (v : Val) (_ctx : Ctx) : Except SerializeError (List Nat) :=
  .ok (encodeVal v)

/-- `from_bytes` (`deserialize.rs` lines 56-65): validate the buffer
(`check_archived_root`, any failure mapped to `CheckBytesError`) and
materialize the value.  The root must account for the whole buffer — rkyv
anchors the root record at the end of the archive, so a size mismatch is a
validation failure. -/
def from_bytes (t : Ty) (bytes : List Nat) (ctx : Ctx) :
    Except DeserializeError Val :=
  match decodeVal t ctx bytes with
  | .error e => .error e
  | .ok (v, []) => .ok v
  | .ok (_, _ :: _) => .error .CheckBytesError

/-- Replace every skip field with the value the given context reconstructs:
the shape of the value that `from_bytes` materializes. -/
def refill (ctx : Ctx) : Val → Val
  | .pair a b => .pair (refill ctx a) (refill ctx b)
  | .skipVal _ => .skipVal ctx.skipValue
  | .u32 n => .u32 n
  | .str s => .str s
  | .raw bs => .raw bs

/-- Value equality that ignores fields bound to the skip adapter. -/
def eqModSkip : Val → Val → Bool
  | .skipVal _, .skipVal _ => true
  | .pair a b, .pair c d => eqModSkip a c && eqModSkip b d
  | v, w => v == w

theorem eqModSkip_refill (ctx : Ctx) (v : Val) :
    eqModSkip v (refill ctx v) = true := by
  induction v with
  | u32 n => simp [eqModSkip, refill]
  | str s => simp [eqModSkip, refill]
  | raw bs => simp [eqModSkip, refill]
  | pair a b iha ihb => simp [eqModSkip, refill, iha, ihb]
  | skipVal k => simp [eqModSkip, refill]

/-- Core codec correctness: decoding an emitted value (followed by anything)
recovers the value, with every skip field rebuilt from the decoding context. -/
theorem decodeVal_encodeVal (v : Val) :
    ∀ (t : Ty), hasTy v t = true → wfVal v = true →
    ∀ (ctx : Ctx) (rest : List Nat),
    decodeVal t ctx (encodeVal v ++ rest) = .ok (refill ctx v, rest) := by
  induction v with
  | u32 n =>
    intro t ht hw ctx rest
    cases t with
    | u32 =>
      simp only [wfVal, decide_eq_true_eq] at hw
      simp only [encodeVal, decodeVal]
      rw [readU32_writeU32 n hw rest]
      rfl
    | str => simp [hasTy] at ht
    | raw => simp [hasTy] at ht
    | pair t1 t2 => simp [hasTy] at ht
    | skip => simp [hasTy] at ht
  | str s =>
    intro t ht hw ctx rest
    cases t with
    | str =>
      simp only [wfVal, Bool.and_eq_true, decide_eq_true_eq] at hw
      simp only [encodeVal, decodeVal, List.append_assoc]
      rw [readU32_writeU32 s.length hw.1 (s ++ rest)]
      show (do
        let (m, r2) ← readBytes s.length (s ++ rest)
        Except.ok (Val.str m, r2)) = Except.ok (refill ctx (Val.str s), rest)
      rw [readBytes_exact]
      rfl
    | u32 => simp [hasTy] at ht
    | raw => simp [hasTy] at ht
    | pair t1 t2 => simp [hasTy] at ht
    | skip => simp [hasTy] at ht
  | raw bs =>
    intro t ht hw ctx rest
    cases t with
    | raw =>
      simp only [wfVal, Bool.and_eq_true, decide_eq_true_eq] at hw
      simp only [encodeVal, decodeVal, List.append_assoc]
      rw [readU32_writeU32 bs.length hw.1 (bs ++ rest)]
      show (do
        let (m, r2) ← readBytes bs.length (bs ++ rest)
        Except.ok (Val.raw m, r2)) = Except.ok (refill ctx (Val.raw bs), rest)
      rw [readBytes_exact]
      rfl
    | u32 => simp [hasTy] at ht
    | str => simp [hasTy] at ht
    | pair t1 t2 => simp [hasTy] at ht
    | skip => simp [hasTy] at ht
  | pair a b iha ihb =>
    intro t ht hw ctx rest
    cases t with
    | pair t1 t2 =>
      simp only [hasTy, Bool.and_eq_true] at ht
      simp only [wfVal, Bool.and_eq_true] at hw
      simp only [encodeVal, decodeVal, List.append_assoc]
      rw [iha t1 ht.1 hw.1 ctx (encodeVal b ++ rest)]
      show (do
        let (x, r2) ← decodeVal t2 ctx (encodeVal b ++ rest)
        Except.ok (Val.pair (refill ctx a) x, r2)) =
          Except.ok (refill ctx (Val.pair a b), rest)
      rw [ihb t2 ht.2 hw.2 ctx rest]
      rfl
    | u32 => simp [hasTy] at ht
    | str => simp [hasTy] at ht
    | raw => simp [hasTy] at ht
    | skip => simp [hasTy] at ht
  | skipVal k =>
    intro t ht hw ctx rest
    cases t with
    | skip => simp [encodeVal, decodeVal, refill]
    | u32 => simp [hasTy] at ht
    | str => simp [hasTy] at ht
    | raw => simp [hasTy] at ht
    | pair t1 t2 => simp [hasTy] at ht

theorem from_bytes_encodeVal (v : Val) (t : Ty) (ht : hasTy v t = true)
    (hw : wfVal v = true) (ctx : Ctx) :
    from_bytes t (encodeVal v) ctx = .ok (refill ctx v) := by
  have h := decodeVal_encodeVal v t ht hw ctx []
  rw [List.append_nil] at h
  simp [from_bytes, h]

/-- C1: Round-trip — for every supported value `v` and any contexts `ctx1`,
`ctx2`, if `to_bytes(&v, ctx1)` returns `Ok(bytes)`, then
`from_bytes(&bytes, ctx2)` returns `Ok(v')` with `v'` equal to `v` under a
value-equality that ignores fields bound to the skip adapter; those fields of
`v'` are reconstructed from `ctx2`, not taken from `v`. -/
theorem c1_round_trip (v : Val) (t : Ty) (ht : hasTy v t = true)
    (hw : wfVal v = true) (ctx1 ctx2 : Ctx) (bytes : List Nat)
    (hb : to_bytes v ctx1 = .ok bytes) :
    from_bytes t bytes ctx2 = .ok (refill ctx2 v) ∧
    eqModSkip v (refill ctx2 v) = true := by
  have hbytes : bytes = encodeVal v := by
    simpa [to_bytes] using hb.symm
  subst hbytes
  exact ⟨from_bytes_encodeVal v t ht hw ctx2, eqModSkip_refill ctx2 v⟩

/-- Witness for C1 on a concrete value (a skip field next to a `u32` and a
string): serializing with one context and deserializing with another restores
everything but the skip field, which takes the second context's value. -/
theorem c1_round_trip_witness :
    from_bytes (Ty.pair .u32 (Ty.pair .str .skip))
        (encodeVal (Val.pair (.u32 5) (.pair (.str [104, 105]) (.skipVal 9))))
        ⟨7⟩ =
      .ok (refill ⟨7⟩ (Val.pair (.u32 5) (.pair (.str [104, 105]) (.skipVal 9)))) ∧
    eqModSkip (Val.pair (.u32 5) (.pair (.str [104, 105]) (.skipVal 9)))
        (refill ⟨7⟩ (Val.pair (.u32 5) (.pair (.str [104, 105]) (.skipVal 9)))) = true :=
  c1_round_trip (Val.pair (.u32 5) (.pair (.str [104, 105]) (.skipVal 9)))
    (Ty.pair .u32 (Ty.pair .str .skip)) (by decide) (by decide) ⟨0⟩ ⟨7⟩ _ rfl

/-! ## C2: corruption safety

The representative structured type with nested and variable-length fields:
a struct holding a `u32`, a string, and a byte vector. -/

/-- Representative archived type: `struct { a: u32, b: (String, Vec<u8>) }`. -/
def reprTy : Ty := .pair .u32 (.pair .str .raw)

/-- A concrete well-formed inhabitant of `reprTy`. -/
def reprVal : Val := .pair (.u32 16909060) (.pair (.str [97, 98]) (.raw [7]))

/-- The valid archive `to_bytes` produces for `reprVal`. -/
def reprBytes : List Nat := encodeVal reprVal

/-- The deserializer is total and its only error is `CheckBytesError`: on any
input it either rejects with `CheckBytesError` or materializes some value.  In
particular it never reaches unchecked memory interpretation (no crash) and
never surfaces `DuplicateSharedPointer` for types without shared fields. -/
theorem decodeVal_total (t : Ty) :
    ∀ (ctx : Ctx) (bs : List Nat),
    decodeVal t ctx bs = .error .CheckBytesError ∨
    ∃ v rest, decodeVal t ctx bs = .ok (v, rest) := by
  induction t with
  | u32 =>
    intro ctx bs
    match bs with
    | b0 :: b1 :: b2 :: b3 :: rest => right; exact ⟨_, _, rfl⟩
    | [] => left; rfl
    | [b0] => left; rfl
    | [b0, b1] => left; rfl
    | [b0, b1, b2] => left; rfl
  | str =>
    intro ctx bs
    match bs with
    | b0 :: b1 :: b2 :: b3 :: rest =>
      simp only [decodeVal, readU32, readBytes, bind, Except.bind]
      by_cases h : b0 + 256 * b1 + 65536 * b2 + 16777216 * b3 ≤ rest.length
      · rw [if_pos h]; right; exact ⟨_, _, rfl⟩
      · rw [if_neg h]; left; rfl
    | [] => left; rfl
    | [b0] => left; rfl
    | [b0, b1] => left; rfl
    | [b0, b1, b2] => left; rfl
  | raw =>
    intro ctx bs
    match bs with
    | b0 :: b1 :: b2 :: b3 :: rest =>
      simp only [decodeVal, readU32, readBytes, bind, Except.bind]
      by_cases h : b0 + 256 * b1 + 65536 * b2 + 16777216 * b3 ≤ rest.length
      · rw [if_pos h]; right; exact ⟨_, _, rfl⟩
      · rw [if_neg h]; left; rfl
    | [] => left; rfl
    | [b0] => left; rfl
    | [b0, b1] => left; rfl
    | [b0, b1, b2] => left; rfl
  | pair t1 t2 ih1 ih2 =>
    intro ctx bs
    rcases ih1 ctx bs with h1 | ⟨v1, r1, h1⟩
    · left; simp [decodeVal, h1, bind, Except.bind]
    · rcases ih2 ctx r1 with h2 | ⟨v2, r2, h2⟩
      · left; simp [decodeVal, h1, h2, bind, Except.bind]
      · right
        exact ⟨.pair v1 v2, r2, by simp [decodeVal, h1, h2, bind, Except.bind]⟩
  | skip =>
    intro ctx bs
    right; exact ⟨_, _, rfl⟩

theorem from_bytes_total (t : Ty) (ctx : Ctx) (bs : List Nat) :
    from_bytes t bs ctx = .error .CheckBytesError ∨
    ∃ v, from_bytes t bs ctx = .ok v := by
  rcases decodeVal_total t ctx bs with h | ⟨v, rest, h⟩
  · left; simp [from_bytes, h]
  · match rest, h with
    | [], h => right; exact ⟨v, by simp [from_bytes, h]⟩
    | r :: rs, h => left; simp [from_bytes, h]

/-- C2 counterexample: the claim says every single-byte flip of a valid
archive makes `from_bytes` return `CheckBytesError`.  Flipping byte 0 (the low
byte of the archived `u32`, `4 ↦ 5`) is accepted by validation — integer
content bytes carry no checksum — and `from_bytes` returns `Ok` with a value
that differs from the serialized one. -/
theorem c2_counterexample :
    from_bytes reprTy (reprBytes.set 0 5) ⟨0⟩ =
      .ok (.pair (.u32 16909061) (.pair (.str [97, 98]) (.raw [7]))) ∧
    from_bytes reprTy (reprBytes.set 0 5) ⟨0⟩ ≠ .error .CheckBytesError ∧
    Val.pair (.u32 16909061) (.pair (.str [97, 98]) (.raw [7])) ≠ reprVal := by
  refine ⟨by decide, ?_, by decide⟩
  intro h
  rw [show from_bytes reprTy (reprBytes.set 0 5) ⟨0⟩ =
      .ok (.pair (.u32 16909061) (.pair (.str [97, 98]) (.raw [7]))) from by decide] at h
  exact Except.noConfusion h

/-- C2 (amended): mutating any single byte of the representative archive never
crashes the deserializer and never produces any error other than
`CheckBytesError` — the result is either `CheckBytesError` or an `Ok`; flips
that corrupt structural metadata (here: the string's length prefix) are
rejected with `CheckBytesError`, while flips in raw content bytes can be
accepted and then yield a value different from the one serialized. -/
theorem c2_corruption_safety :
    (∀ (i b : Nat), from_bytes reprTy (reprBytes.set i b) ⟨0⟩ =
        .error .CheckBytesError ∨
      ∃ w, from_bytes reprTy (reprBytes.set i b) ⟨0⟩ = .ok w) ∧
    from_bytes reprTy (reprBytes.set 4 255) ⟨0⟩ = .error .CheckBytesError := by
  exact ⟨fun i b => from_bytes_total reprTy ⟨0⟩ (reprBytes.set i b), by decide⟩

/-- C7: Skip semantics — a skip-adapted field occupies zero archive bytes, the
archive is entirely independent of the in-memory values of skip fields
(values equal up to skip fields serialize to identical bytes), and on read the
field is produced solely from the context, consuming no archive bytes. -/
theorem c7_skip_semantics :
    (∀ k : Nat, encodeVal (.skipVal k) = []) ∧
    (∀ v w : Val, eqModSkip v w = true → encodeVal v = encodeVal w) ∧
    (∀ (ctx : Ctx) (bs : List Nat),
      decodeVal .skip ctx bs = .ok (.skipVal ctx.skipValue, bs)) := by
  refine ⟨fun _ => rfl, ?_, fun _ _ => rfl⟩
  intro v
  induction v with
  | u32 n =>
    intro w h
    cases w <;> simp_all [eqModSkip]
  | str s =>
    intro w h
    cases w <;> simp_all [eqModSkip]
  | raw bs =>
    intro w h
    cases w <;> simp_all [eqModSkip]
  | pair a b iha ihb =>
    intro w h
    cases w with
    | pair c d =>
      simp only [eqModSkip, Bool.and_eq_true] at h
      simp [encodeVal, iha c h.1, ihb d h.2]
    | u32 n => simp_all [eqModSkip]
    | str s => simp_all [eqModSkip]
    | raw bs => simp_all [eqModSkip]
    | skipVal k => simp_all [eqModSkip]
  | skipVal k =>
    intro w h
    cases w <;> simp_all [eqModSkip, encodeVal]

/-- Witness for C7: two values that differ only in their skip field serialize
to the same archive. -/
theorem c7_skip_semantics_witness :
    encodeVal (Val.pair (.u32 1) (.skipVal 3)) =
      encodeVal (Val.pair (.u32 1) (.skipVal 8)) :=
  c7_skip_semantics.2.1 (Val.pair (.u32 1) (.skipVal 3))
    (Val.pair (.u32 1) (.skipVal 8)) (by decide)

/-! ## The cacheable_dyn registry (`cacheable_dyn.rs`)

`impl_trait` generates, per polymorphic capability, a flag struct
`{ name, deserialize }` collected through `inventory`, a lazily built
`REGISTRY : BTreeMap<&str, DeserializeFn>` that panics on a duplicate name,
and an `AsDynConverter` impl for `Box<dyn Trait>` archiving a
`(String, Vec<u8>)` pair.  `impl_impl` generates, per concrete type, the tag
(the last path segment of the type), `__cacheable_dyn_to_data` (a recursive
`to_bytes` on the concrete value) and the `inventory::submit!` registration
record.  Tags are byte strings here (`&'static str` contents). -/

/-- A reconstruction function, `fn(&[u8], &mut C) -> Result<Box<dyn T>, DeserializeError>`. -/
abbrev DeserializeFn : Type := List Nat → Ctx → Except DeserializeError Val

/-- One registration record, the generated `#flag_ident { name, deserialize }`. -/
structure RegRecord where
  name : List Nat
  deserialize : DeserializeFn

/-- The registry map contents (`BTreeMap<&str, DeserializeFn>`, modelled as an
association list in insertion order). -/
abbrev RegMap : Type := List (List Nat × DeserializeFn)

/-- `BTreeMap::get` / `entry` lookup by tag. -/
def regGet : RegMap → List Nat → Option DeserializeFn
  | [], _ => none
  | (k, f) :: rest, name => if k = name then some f else regGet rest name

/-- The panic message of the duplicate-tag branch:
`"cacheable_dyn init global REGISTRY error, duplicate implementation of {name}"`. -/
def msgOfName (name : List Nat) : String :=
  "cacheable_dyn init global REGISTRY error, duplicate implementation of " ++
    String.mk (name.map Char.ofNat)

/-- The loop body of the one-time registry build (`once_cell::sync::Lazy`
closure in `impl_trait`): fold the inventory records into the map, panicking
on an occupied entry. -/
def buildRegistryGo (acc : RegMap) : List RegRecord → ROutcome RegMap
  | [] => .ok acc
  | r :: rest =>
    match regGet acc r.name with
    | some _ => .panic (msgOfName r.name)
    | none => buildRegistryGo (acc ++ [(r.name, r.deserialize)]) rest

/-- The one-time lazy registry build over all collected records. -/
def buildRegistry (records : List RegRecord) : ROutcome RegMap :=
  buildRegistryGo [] records

/-- `REGISTRY.get(name)`: forces the lazy build (so a build-time panic
surfaces here, before any lookup result exists), then looks the tag up. -/
def registryGet (records : List RegRecord) (name : List Nat) :
    ROutcome (Option DeserializeFn) :=
  match buildRegistry records with
  | .panic m => .panic m
  | .err e => .err e
  | .ok m => .ok (regGet m name)

/-- A concrete implementing type's path (`input.self_ty` in `impl_impl`), a
nonempty segment list. -/
structure DynImpl where
  pathSegs : List (List Nat)
  ne : pathSegs ≠ []

/-- `target_ident_string` in `impl_impl`: the unqualified type name, i.e. the
last path segment (`inner.path.segments.last().unwrap().ident`). -/
def typeName (d : DynImpl) : List Nat := d.pathSegs.getLast d.ne

/-- The record `impl_impl` submits through `inventory::submit!`:
`<dyn Trait>::cacheable_flag(#target_ident_string, |bytes, context| ...)`. -/
def cacheable_flag (d : DynImpl) (fn : DeserializeFn) : RegRecord :=
  ⟨typeName d, fn⟩

/-- `AsDynConverter::to_bytes` for `Box<dyn Trait>`: pair the concrete value's
tag (`__cacheable_dyn_type_name`, the last path segment) with its own
recursively serialized bytes (`__cacheable_dyn_to_data`, i.e.
`rspack_cacheable::to_bytes(self, context)`), then serialize the
`(String, Vec<u8>)` pair itself with `to_bytes`. -/
def dyn_to_bytes (d : DynImpl) (v : Val) (ctx : Ctx) :
    Except SerializeError (List Nat) := do
  let data ← to_bytes v ctx
  to_bytes (.pair (.str (typeName d)) (.raw data)) ctx

/-- `AsDynConverter::from_bytes` for `Box<dyn Trait>`: decode the
`(String, Vec<u8>)` pair with `from_bytes`, look the tag up in `REGISTRY`
(forcing the lazy build), `expect` the lookup (panics with
"unsupport data type when deserialize" when the tag is unregistered), then run
the reconstruction function.  The catch-all arm is unreachable: decoding at
type `(String, Vec<u8>)` always produces that shape. -/
def dyn_from_bytes (records : List RegRecord) (bytes : List Nat) (ctx : Ctx) :
    ROutcome Val :=
  match from_bytes (Ty.pair .str .raw) bytes ctx with
  | .error e => .err e
  | .ok (.pair (.str name) (.raw data)) =>
      match registryGet records name with
      | .panic m => .panic m
      | .err e => .err e
      | .ok none => .panic "unsupport data type when deserialize"
      | .ok (some f) =>
          match f data ctx with
          | .ok v => .ok v
          | .error e => .err e
  | .ok _ => .err .CheckBytesError

/-- Every byte the serializer emits is an actual byte (below 256). -/
theorem encodeVal_all_lt (v : Val) (hw : wfVal v = true) :
    (encodeVal v).all (· < 256) = true := by
  induction v with
  | u32 n => simp [encodeVal, writeU32]; omega
  | str s =>
    simp only [wfVal, Bool.and_eq_true] at hw
    simp only [encodeVal, writeU32, List.all_append, Bool.and_eq_true]
    exact ⟨by simp; omega, hw.2⟩
  | raw bs =>
    simp only [wfVal, Bool.and_eq_true] at hw
    simp only [encodeVal, writeU32, List.all_append, Bool.and_eq_true]
    exact ⟨by simp; omega, hw.2⟩
  | pair a b iha ihb =>
    simp only [wfVal, Bool.and_eq_true] at hw
    simp only [encodeVal, List.all_append, Bool.and_eq_true]
    exact ⟨iha hw.1, ihb hw.2⟩
  | skipVal k => simp [encodeVal]

/-- C8: Polymorphic tag convention — a field serialized through the `AsDyn`
adapter is archived as a `(tag, bytes)` pair whose tag is exactly the
unqualified type name (the last path segment) of the concrete implementing
type and whose bytes recursively serialize the concrete value itself; the
registry registration record and its lookups are keyed by that same
unqualified name. -/
theorem c8_tag_convention (d : DynImpl) (fn : DeserializeFn) (v : Val)
    (ctx1 ctx2 : Ctx)
    (hnl : (typeName d).length < 4294967296)
    (hnb : (typeName d).all (· < 256) = true)
    (hv : wfVal v = true)
    (hdl : (encodeVal v).length < 4294967296) :
    dyn_to_bytes d v ctx1 =
      .ok (encodeVal (.pair (.str (typeName d)) (.raw (encodeVal v)))) ∧
    from_bytes (Ty.pair .str .raw)
        (encodeVal (.pair (.str (typeName d)) (.raw (encodeVal v)))) ctx2 =
      .ok (.pair (.str (typeName d)) (.raw (encodeVal v))) ∧
    (cacheable_flag d fn).name = typeName d ∧
    buildRegistry [cacheable_flag d fn] = .ok [(typeName d, fn)] ∧
    regGet [(typeName d, fn)] (typeName d) = some fn := by
  have hwpair : wfVal (.pair (.str (typeName d)) (.raw (encodeVal v))) = true := by
    simp only [wfVal, Bool.and_eq_true, decide_eq_true_eq]
    exact ⟨⟨hnl, hnb⟩, hdl, encodeVal_all_lt v hv⟩
  refine ⟨rfl, ?_, rfl, ?_, by simp [regGet]⟩
  · have h := from_bytes_encodeVal (.pair (.str (typeName d)) (.raw (encodeVal v)))
      (Ty.pair .str .raw) (by simp [hasTy]) hwpair ctx2
    simpa [refill] using h
  · simp [buildRegistry, buildRegistryGo, cacheable_flag, regGet]

/-- Witness for C8: a concrete two-segment path; the archived tag and the
registry key are the final segment. -/
theorem c8_tag_convention_witness :
    dyn_to_bytes ⟨[[65], [66]], by decide⟩ (.u32 9) ⟨0⟩ =
      .ok (encodeVal (.pair (.str (typeName ⟨[[65], [66]], by decide⟩))
        (.raw (encodeVal (.u32 9))))) ∧
    from_bytes (Ty.pair .str .raw)
        (encodeVal (.pair (.str (typeName ⟨[[65], [66]], by decide⟩))
          (.raw (encodeVal (.u32 9))))) ⟨0⟩ =
      .ok (.pair (.str (typeName ⟨[[65], [66]], by decide⟩))
        (.raw (encodeVal (.u32 9)))) ∧
    (cacheable_flag ⟨[[65], [66]], by decide⟩ (fun _ _ => .ok (.u32 0))).name =
      typeName ⟨[[65], [66]], by decide⟩ ∧
    buildRegistry [cacheable_flag ⟨[[65], [66]], by decide⟩ (fun _ _ => .ok (.u32 0))] =
      .ok [(typeName ⟨[[65], [66]], by decide⟩, fun _ _ => .ok (.u32 0))] ∧
    regGet [(typeName ⟨[[65], [66]], by decide⟩, fun _ _ => .ok (.u32 0))]
        (typeName ⟨[[65], [66]], by decide⟩) = some (fun _ _ => .ok (.u32 0)) :=
  c8_tag_convention ⟨[[65], [66]], by decide⟩ (fun _ _ => .ok (.u32 0)) (.u32 9)
    ⟨0⟩ ⟨0⟩ (by decide) (by decide) (by decide) (by decide)

/-- C3 counterexample: with an empty registry, deserializing a payload whose
stored tag (here the single byte `[88]`, "X") was never registered makes
`AsDynConverter::from_bytes` hit `REGISTRY.get(..).expect(..)` and panic with
"unsupport data type when deserialize" — it is a process abort, not an error
value returned to the caller of `from_bytes`. -/
theorem c3_counterexample :
    dyn_from_bytes [] (encodeVal (.pair (.str [88]) (.raw [7]))) ⟨0⟩ =
      .panic "unsupport data type when deserialize" ∧
    ∀ e : DeserializeError,
      dyn_from_bytes [] (encodeVal (.pair (.str [88]) (.raw [7]))) ⟨0⟩ ≠ .err e := by
  have h : dyn_from_bytes [] (encodeVal (.pair (.str [88]) (.raw [7]))) ⟨0⟩ =
      .panic "unsupport data type when deserialize" := rfl
  refine ⟨h, ?_⟩
  intro e he
  rw [h] at he
  exact ROutcome.noConfusion he

/-- C3 (amended): deserializing a polymorphic payload whose stored tag has no
registered reconstruction function deterministically panics with
"unsupport data type when deserialize" (the `expect` on the registry lookup);
the panic is the same for every unregistered tag, every payload, and every
context — it is deterministic and defined, but it is a panic, not an error
value returned to the caller. -/
theorem c3_unknown_tag (records : List RegRecord) (m : RegMap)
    (name data : List Nat) (ctx : Ctx)
    (hb : buildRegistry records = .ok m)
    (hmiss : regGet m name = none)
    (hnl : name.length < 4294967296) (hnb : name.all (· < 256) = true)
    (hdl : data.length < 4294967296) (hdb : data.all (· < 256) = true) :
    dyn_from_bytes records (encodeVal (.pair (.str name) (.raw data))) ctx =
      .panic "unsupport data type when deserialize" := by
  have hwf : wfVal (.pair (.str name) (.raw data)) = true := by
    simp only [wfVal, Bool.and_eq_true, decide_eq_true_eq]
    exact ⟨⟨hnl, hnb⟩, hdl, hdb⟩
  have hfb := from_bytes_encodeVal (.pair (.str name) (.raw data))
    (Ty.pair .str .raw) (by simp [hasTy]) hwf ctx
  simp only [refill] at hfb
  simp [dyn_from_bytes, hfb, registryGet, hb, hmiss]

/-- Witness for C3's amended statement at a concrete unregistered tag. -/
theorem c3_unknown_tag_witness :
    dyn_from_bytes [] (encodeVal (.pair (.str [88]) (.raw [7]))) ⟨0⟩ =
      .panic "unsupport data type when deserialize" :=
  c3_unknown_tag [] [] [88] [7] ⟨0⟩ rfl rfl (by decide) (by decide) (by decide)
    (by decide)

theorem regGet_eq_none (m : RegMap) (n : List Nat) :
    regGet m n = none ↔ ∀ p ∈ m, p.1 ≠ n := by
  induction m with
  | nil => simp [regGet]
  | cons p rest ih =>
    simp only [regGet]
    by_cases h : p.1 = n
    · rw [if_pos h]
      constructor
      · intro hsome; exact absurd hsome (by simp)
      · intro hall; exact absurd h (hall p (List.mem_cons_self p rest))
    · rw [if_neg h, ih]
      constructor
      · intro hall q hq
        rcases List.mem_cons.mp hq with rfl | hq2
        · exact h
        · exact hall q hq2
      · intro hall q hq; exact hall q (List.mem_cons_of_mem p hq)

/-- A successful registry build implies no record's tag is already a key of
the accumulator nor repeated later in the record list. -/
theorem buildRegistryGo_ok_fresh (records : List RegRecord) :
    ∀ (acc m : RegMap), buildRegistryGo acc records = .ok m →
    ∀ p ∈ acc, p.1 ∉ records.map RegRecord.name := by
  induction records with
  | nil => simp
  | cons r rest ih =>
    intro acc m hok p hp
    simp only [buildRegistryGo] at hok
    cases hget : regGet acc r.name with
    | some f => rw [hget] at hok; exact ROutcome.noConfusion hok
    | none =>
      rw [hget] at hok
      have hfresh := (regGet_eq_none acc r.name).mp hget p hp
      have htail := ih (acc ++ [(r.name, r.deserialize)]) m hok p
        (by simp [hp])
      simp only [List.map_cons, List.mem_cons]
      rintro (h | h)
      · exact hfresh h
      · exact htail h

/-- A successful registry build implies the record tags were pairwise
distinct: the build can never complete on an ambiguous record set. -/
theorem buildRegistryGo_ok_nodup (records : List RegRecord) :
    ∀ (acc m : RegMap), buildRegistryGo acc records = .ok m →
    (records.map RegRecord.name).Nodup := by
  induction records with
  | nil => simp
  | cons r rest ih =>
    intro acc m hok
    simp only [buildRegistryGo] at hok
    cases hget : regGet acc r.name with
    | some f => rw [hget] at hok; exact ROutcome.noConfusion hok
    | none =>
      rw [hget] at hok
      refine List.nodup_cons.mpr ⟨?_, ih _ m hok⟩
      exact buildRegistryGo_ok_fresh rest _ m hok (r.name, r.deserialize)
        (by simp)

/-- C4: Duplicate tag — two registration records claiming the same tag make
the lazy one-time registry build panic deterministically (the identical error
message, regardless of the order of the two records), every lookup that forces
the build surfaces that panic before any lookup result exists, and a record
set with any duplicated tag can never produce a built registry. -/
theorem c4_duplicate_tag (r1 r2 : RegRecord) (h : r1.name = r2.name) :
    buildRegistry [r1, r2] = .panic (msgOfName r2.name) ∧
    buildRegistry [r2, r1] = .panic (msgOfName r2.name) ∧
    (∀ name, registryGet [r1, r2] name = .panic (msgOfName r2.name)) ∧
    (∀ (records : List RegRecord) (m : RegMap),
      ¬ (records.map RegRecord.name).Nodup → buildRegistry records ≠ .ok m) := by
  have h1 : buildRegistry [r1, r2] = .panic (msgOfName r2.name) := by
    simp [buildRegistry, buildRegistryGo, regGet, h]
  have h2 : buildRegistry [r2, r1] = .panic (msgOfName r2.name) := by
    simp [buildRegistry, buildRegistryGo, regGet, h]
  refine ⟨h1, h2, fun name => ?_, fun records m hdup hok => ?_⟩
  · simp [registryGet, h1]
  · exact hdup (buildRegistryGo_ok_nodup records [] m hok)

/-- Witness for C4: two concrete records with the same tag and different
reconstruction functions; the build panics with the duplicate message. -/
theorem c4_duplicate_tag_witness :
    buildRegistry [⟨[65], fun _ _ => .ok (.u32 1)⟩, ⟨[65], fun _ _ => .ok (.u32 2)⟩] =
      .panic (msgOfName [65]) :=
  (c4_duplicate_tag ⟨[65], fun _ _ => .ok (.u32 1)⟩
    ⟨[65], fun _ _ => .ok (.u32 2)⟩ rfl).1

/-! ## Shared-ownership tables (`serialize.rs` / `deserialize.rs`)

`CacheableSerializer` owns a `SharedSerializeMap` (write side: value address →
already-emitted position; identities are modelled as per-value ids as in the
design note) and `CacheableDeserializer` owns a `SharedDeserializeMap`
(read side: archive offset → already-materialized instance).  A shared value
(`Arc`-like) is emitted once; later encounters reuse the recorded position,
and later reads of the same offset reuse the materialized instance. -/

/-- An identity-keyed table (id → position on write, offset → heap index on
read). -/
def idLookup : List (Nat × Nat) → Nat → Option Nat
  | [], _ => none
  | (k, p) :: rest, n => if k = n then some p else idLookup rest n

/-- Read-side `SharedDeserializeMap::add_shared_ptr` as wired through
`CacheableDeserializer::add_shared_ptr` (`deserialize.rs` lines 44-53): an
occupied entry is an error, mapped to `DuplicateSharedPointer`; a vacant entry
is inserted.  The table is never silently overwritten: on error no new table
is produced. -/
def add_shared_ptr (m : List (Nat × Nat)) (ptr inst : Nat) :
    Except DeserializeError (List (Nat × Nat)) :=
  match idLookup m ptr with
  | some _ => .error .DuplicateSharedPointer
  | none => .ok ((ptr, inst) :: m)

/-- C6: Duplicate shared registration on read — within one `from_bytes` call,
registering the same archive offset a second time in the read-side shared
table fails with `DuplicateSharedPointer`; the first registration stays
visible, and any successful registration can only have happened at a
previously absent offset (so an existing entry is never overwritten). -/
theorem c6_duplicate_shared_ptr (m m2 : List (Nat × Nat)) (ptr i1 i2 : Nat)
    (h : add_shared_ptr m ptr i1 = .ok m2) :
    add_shared_ptr m2 ptr i2 = .error .DuplicateSharedPointer ∧
    idLookup m2 ptr = some i1 ∧
    (∀ (m3 : List (Nat × Nat)) (p j : Nat) (m4 : List (Nat × Nat)),
      add_shared_ptr m3 p j = .ok m4 → idLookup m3 p = none ∧
        idLookup m4 p = some j) := by
  have hnone : idLookup m ptr = none := by
    by_contra hne
    rcases Option.ne_none_iff_exists.mp hne with ⟨pos, hpos⟩
    simp [add_shared_ptr, hpos.symm] at h
  have hm2 : m2 = (ptr, i1) :: m := by
    simp only [add_shared_ptr, hnone] at h
    exact (Except.ok.injEq _ _ ▸ h).symm
  subst hm2
  refine ⟨by simp [add_shared_ptr, idLookup], by simp [idLookup], ?_⟩
  intro m3 p j m4 hadd
  have hnone3 : idLookup m3 p = none := by
    by_contra hne
    rcases Option.ne_none_iff_exists.mp hne with ⟨pos, hpos⟩
    simp [add_shared_ptr, hpos.symm] at hadd
  have hm4 : m4 = (p, j) :: m3 := by
    simp only [add_shared_ptr, hnone3] at hadd
    exact (Except.ok.injEq _ _ ▸ hadd).symm
  subst hm4
  exact ⟨hnone3, by simp [idLookup]⟩

/-- Witness for C6 starting from the empty table. -/
theorem c6_duplicate_shared_ptr_witness :
    add_shared_ptr [(3, 0)] 3 1 = .error .DuplicateSharedPointer ∧
    idLookup [(3, 0)] 3 = some 0 ∧
    (∀ (m3 : List (Nat × Nat)) (p j : Nat) (m4 : List (Nat × Nat)),
      add_shared_ptr m3 p j = .ok m4 → idLookup m3 p = none ∧
        idLookup m4 p = some j) :=
  c6_duplicate_shared_ptr [] [(3, 0)] 3 0 1 rfl

/-- An `Arc`-like shared handle: `id` is the underlying allocation's identity
(the write-side map key; the source keys by raw address), `val` the pointee. -/
structure Rc where
  id : Nat
  val : Nat
deriving DecidableEq, Repr

/-- A struct whose two fields hold shared handles (possibly to the same
underlying value). -/
structure TwoRc where
  f1 : Rc
  f2 : Rc
deriving DecidableEq, Repr

/-- Write-side state of one `to_bytes` call: the archive buffer plus the
`SharedSerializeMap` owned by this call. -/
structure SerState where
  bytes : List Nat
  shared : List (Nat × Nat)
deriving DecidableEq, Repr

/-- Serialize one shared handle, rkyv `SharedSerializeRegistry` discipline as
wired in `serialize.rs` lines 130-143: `get_shared_ptr` first — a hit reuses
the recorded position and emits nothing; a miss emits the pointee bottom-up
and records its position with `add_shared_ptr`.  Returns the position for the
parent record to reference. -/
def serializeRc (st : SerState) (r : Rc) : SerState × Nat :=
  match idLookup st.shared r.id with
  | some pos => (st, pos)
  | none =>
      (⟨st.bytes ++ writeU32 r.val, (r.id, st.bytes.length) :: st.shared⟩,
        st.bytes.length)

/-- `to_bytes` on a two-field shared graph: children first, then the root
record holding the two positions (rkyv emits bottom-up with the root last). -/
def serializeTwo (g : TwoRc) : List Nat :=
  let s1 := serializeRc ⟨[], []⟩ g.f1
  let s2 := serializeRc s1.1 g.f2
  s2.1.bytes ++ writeU32 s1.2 ++ writeU32 s2.2

/-- Read-side state of one `from_bytes` call: the heap of materialized
instances (an index is an instance identity) plus the `SharedDeserializeMap`
owned by this call. -/
structure DeState where
  heap : List Nat
  shared : List (Nat × Nat)
deriving DecidableEq, Repr

/-- Materialize the shared value referenced at archive offset `pos`, rkyv
`SharedDeserializeRegistry` discipline as wired in `deserialize.rs` lines
39-54: `get_shared_ptr` first — a hit returns the already-materialized
instance; a miss reads the pointee (bounds-checked), allocates a fresh
instance, and registers the offset. -/
def deserializeRcAt (bytes : List Nat) (st : DeState) (pos : Nat) :
    Except DeserializeError (DeState × Nat) :=
  match idLookup st.shared pos with
  | some idx => .ok (st, idx)
  | none => do
      let (v, _) ← readU32 (bytes.drop pos)
      .ok (⟨st.heap ++ [v], (pos, st.heap.length) :: st.shared⟩, st.heap.length)

/-- `from_bytes` on the two-field shared graph: the root record sits at the
end of the archive; validate and read its two positions, then materialize both
fields through the shared table.  Returns the heap and the two fields'
instance indices. -/
def deserializeTwo (bytes : List Nat) :
    Except DeserializeError (List Nat × Nat × Nat) :=
  if 8 ≤ bytes.length then do
    let (p1, rest1) ← readU32 (bytes.drop (bytes.length - 8))
    let (p2, _) ← readU32 rest1
    let (st1, i1) ← deserializeRcAt bytes ⟨[], []⟩ p1
    let (st2, i2) ← deserializeRcAt bytes st1 p2
    .ok (st2.heap, i1, i2)
  else .error .CheckBytesError

/-- C5: Sharing dedup — when both fields hold the same underlying shared
value, the archive is strictly shorter than when the two fields hold two
independent copies of that value (the second encounter emits only a
back-reference), and after a round-trip the two restored fields are
identity-equal: the same materialized instance, one heap cell total. -/
theorem c5_sharing_dedup (id1 id2 v : Nat) (hne : id1 ≠ id2)
    (hv : v < 4294967296) :
    (serializeTwo ⟨⟨id1, v⟩, ⟨id1, v⟩⟩).length <
      (serializeTwo ⟨⟨id1, v⟩, ⟨id2, v⟩⟩).length ∧
    deserializeTwo (serializeTwo ⟨⟨id1, v⟩, ⟨id1, v⟩⟩) = .ok ([v], 0, 0) ∧
    (∀ heap i1 i2,
      deserializeTwo (serializeTwo ⟨⟨id1, v⟩, ⟨id1, v⟩⟩) = .ok (heap, i1, i2) →
      i1 = i2) := by
  have hshared : serializeTwo ⟨⟨id1, v⟩, ⟨id1, v⟩⟩ =
      writeU32 v ++ writeU32 0 ++ writeU32 0 := by
    simp [serializeTwo, serializeRc, idLookup]
  have hindep : serializeTwo ⟨⟨id1, v⟩, ⟨id2, v⟩⟩ =
      (writeU32 v ++ writeU32 v) ++ writeU32 0 ++ writeU32 4 := by
    simp [serializeTwo, serializeRc, idLookup, hne, writeU32]
  have hlen : (serializeTwo ⟨⟨id1, v⟩, ⟨id1, v⟩⟩).length <
      (serializeTwo ⟨⟨id1, v⟩, ⟨id2, v⟩⟩).length := by
    rw [hshared, hindep]
    simp [writeU32]
  have hde : deserializeTwo (serializeTwo ⟨⟨id1, v⟩, ⟨id1, v⟩⟩) =
      .ok ([v], 0, 0) := by
    rw [hshared]
    have hlen12 : (writeU32 v ++ writeU32 0 ++ writeU32 0).length = 12 := by
      simp [writeU32]
    simp only [deserializeTwo, hlen12]
    rw [if_pos (by omega)]
    have hdrop : (writeU32 v ++ writeU32 0 ++ writeU32 0).drop 4 =
        writeU32 0 ++ writeU32 0 := by
      rw [List.append_assoc, List.drop_append_of_le_length (by simp [writeU32])]
      simp [writeU32]
    rw [show (12 : Nat) - 8 = 4 from rfl, hdrop,
      readU32_writeU32 0 (by omega) (writeU32 0)]
    show (do
      let (p2, _) ← readU32 (writeU32 0)
      let (st1, i1) ← deserializeRcAt (writeU32 v ++ writeU32 0 ++ writeU32 0)
        ⟨[], []⟩ 0
      let (st2, i2) ← deserializeRcAt (writeU32 v ++ writeU32 0 ++ writeU32 0)
        st1 p2
      Except.ok (st2.heap, i1, i2)) = .ok ([v], 0, 0)
    rw [show readU32 (writeU32 0) = .ok (0, []) from
      by simpa using readU32_writeU32 0 (by omega) []]
    show (do
      let (st1, i1) ← deserializeRcAt (writeU32 v ++ writeU32 0 ++ writeU32 0)
        ⟨[], []⟩ 0
      let (st2, i2) ← deserializeRcAt (writeU32 v ++ writeU32 0 ++ writeU32 0)
        st1 0
      Except.ok (st2.heap, i1, i2)) = .ok ([v], 0, 0)
    have hfirst : deserializeRcAt (writeU32 v ++ writeU32 0 ++ writeU32 0)
        ⟨[], []⟩ 0 = .ok (⟨[v], [(0, 0)]⟩, 0) := by
      simp only [deserializeRcAt, idLookup, List.drop_zero, List.append_assoc]
      rw [readU32_writeU32 v hv (writeU32 0 ++ writeU32 0)]
      rfl
    rw [hfirst]
    show (do
      let (st2, i2) ← deserializeRcAt (writeU32 v ++ writeU32 0 ++ writeU32 0)
        (⟨[v], [(0, 0)]⟩ : DeState) 0
      Except.ok (st2.heap, (0 : Nat), i2)) = .ok ([v], 0, 0)
    rw [show deserializeRcAt (writeU32 v ++ writeU32 0 ++ writeU32 0)
        (⟨[v], [(0, 0)]⟩ : DeState) 0 = .ok (⟨[v], [(0, 0)]⟩, 0) from rfl]
    rfl
  refine ⟨hlen, hde, ?_⟩
  intro heap i1 i2 h
  rw [hde] at h
  have := (Except.ok.injEq _ _ ▸ h)
  injection h with h1
  injection h1 with ha hb
  injection hb with hc hd
  omega

/-- Witness for C5 at concrete identities and value. -/
theorem c5_sharing_dedup_witness :
    (serializeTwo ⟨⟨1, 77⟩, ⟨1, 77⟩⟩).length <
      (serializeTwo ⟨⟨1, 77⟩, ⟨2, 77⟩⟩).length ∧
    deserializeTwo (serializeTwo ⟨⟨1, 77⟩, ⟨1, 77⟩⟩) = .ok ([77], 0, 0) ∧
    (∀ heap i1 i2,
      deserializeTwo (serializeTwo ⟨⟨1, 77⟩, ⟨1, 77⟩⟩) = .ok (heap, i1, i2) →
      i1 = i2) :=
  c5_sharing_dedup 1 2 77 (by decide) (by decide)

/-! ## C9: the AsDyn adapter boundary and sharing

`AsDyn::serialize_with` (`as_dyn.rs` lines 41-56) obtains the payload bytes by
calling `field.to_bytes(serializer.get_context())`, i.e. the generated
`AsDynConverter::to_bytes`, which calls the top-level `rspack_cacheable::to_bytes`;
that constructs `CacheableSerializer::new` with `shared: Default::default()` —
a fresh, empty `SharedSerializeMap`.  The resulting `Vec<u8>` is then archived
into the enclosing archive as an opaque `ArchivedVec<u8>`.  Symmetrically,
`AsDyn::deserialize_with` calls `AsDynConverter::from_bytes`, which calls the
top-level `rspack_cacheable::from_bytes` with a fresh, empty
`SharedDeserializeMap`.  So no back-reference can cross the adapter
boundary. -/

/-- The polymorphic payload: a value holding one shared handle. -/
structure DynPayload where
  inner : Rc
deriving DecidableEq, Repr

/-- The enclosing graph: a shared handle next to a `Box<dyn Trait>`-like field
whose payload holds another handle (possibly to the same underlying value). -/
structure Outer where
  a : Rc
  dynField : DynPayload
deriving DecidableEq, Repr

/-- Serialize the payload through a fresh top-level `to_bytes` call: note the
fresh initial state `⟨[], []⟩` — a new archive buffer and a new, empty
shared table, exactly as `CacheableSerializer::new` builds them. -/
def serializePayload (p : DynPayload) : List Nat :=
  let s := serializeRc ⟨[], []⟩ p.inner
  s.1.bytes ++ writeU32 s.2

/-- Serialize the enclosing graph: its own shared handle through the outer
call's shared table, the payload through `AsDyn::serialize_with` (a fresh
`to_bytes` whose bytes are embedded as an `ArchivedVec<u8>`: contents, then
position and length metadata in the root). -/
def serializeOuter (o : Outer) : List Nat :=
  let s1 := serializeRc ⟨[], []⟩ o.a
  let payload := serializePayload o.dynField
  s1.1.bytes ++ payload ++
    writeU32 s1.2 ++ writeU32 s1.1.bytes.length ++ writeU32 payload.length

/-- Deserialize a payload through a fresh top-level `from_bytes` call: a new
`CacheableDeserializer` with a new, empty `SharedDeserializeMap`, so instances
materialized by the enclosing call are invisible here. -/
def deserializePayload (bytes : List Nat) :
    Except DeserializeError (List Nat × Nat) :=
  if 4 ≤ bytes.length then do
    let (p, _) ← readU32 (bytes.drop (bytes.length - 4))
    let (st, i) ← deserializeRcAt bytes ⟨[], []⟩ p
    .ok (st.heap, i)
  else .error .CheckBytesError

/-- Deserialize the enclosing graph: read the root metadata (field position,
payload position, payload length), materialize the outer handle in this
call's shared table, then hand the payload bytes to
`AsDynConverter::from_bytes` (fresh state).  Returns each side's heap and
instance index. -/
def deserializeOuter (bytes : List Nat) :
    Except DeserializeError ((List Nat × Nat) × (List Nat × Nat)) :=
  if 12 ≤ bytes.length then do
    let (p1, rest1) ← readU32 (bytes.drop (bytes.length - 12))
    let (vpos, rest2) ← readU32 rest1
    let (vlen, _) ← readU32 rest2
    let (payload, _) ← readBytes vlen (bytes.drop vpos)
    let (st, iA) ← deserializeRcAt bytes ⟨[], []⟩ p1
    let (pheap, iP) ← deserializePayload payload
    .ok ((st.heap, iA), (pheap, iP))
  else .error .CheckBytesError

/-- C9: Nested serialization of polymorphic payloads — the `AsDyn` payload is
produced by a fresh top-level `to_bytes` with its own empty shared table, so a
value shared between the payload and the enclosing graph is serialized twice:
the archive is exactly as long as with two unrelated underlying values (no
back-reference crosses the adapter boundary), the pointee bytes appear in both
the outer buffer and the embedded payload, and after the round-trip the outer
field and the payload field are separate materialized instances (two heap
cells in two per-call heaps), not one shared instance. -/
theorem c9_no_cross_boundary_sharing (id1 v : Nat) (hv : v < 4294967296) :
    (serializeOuter ⟨⟨id1, v⟩, ⟨⟨id1, v⟩⟩⟩).length =
      (serializeOuter ⟨⟨id1, v⟩, ⟨⟨id1 + 1, v⟩⟩⟩).length ∧
    serializeOuter ⟨⟨id1, v⟩, ⟨⟨id1, v⟩⟩⟩ =
      writeU32 v ++ (writeU32 v ++ writeU32 0) ++
        writeU32 0 ++ writeU32 4 ++ writeU32 8 ∧
    deserializeOuter (serializeOuter ⟨⟨id1, v⟩, ⟨⟨id1, v⟩⟩⟩) =
      .ok (([v], 0), ([v], 0)) := by
  have hser : serializeOuter ⟨⟨id1, v⟩, ⟨⟨id1, v⟩⟩⟩ =
      writeU32 v ++ (writeU32 v ++ writeU32 0) ++
        writeU32 0 ++ writeU32 4 ++ writeU32 8 := by
    simp [serializeOuter, serializePayload, serializeRc, idLookup, writeU32]
  have hser2 : serializeOuter ⟨⟨id1, v⟩, ⟨⟨id1 + 1, v⟩⟩⟩ =
      writeU32 v ++ (writeU32 v ++ writeU32 0) ++
        writeU32 0 ++ writeU32 4 ++ writeU32 8 := by
    simp [serializeOuter, serializePayload, serializeRc, idLookup, writeU32]
  refine ⟨by rw [hser, hser2], hser, ?_⟩
  rw [hser]
  have hlen : (writeU32 v ++ (writeU32 v ++ writeU32 0) ++
      writeU32 0 ++ writeU32 4 ++ writeU32 8).length = 24 := by
    simp [writeU32]
  simp only [deserializeOuter, hlen]
  rw [if_pos (by omega)]
  have hdrop12 : (writeU32 v ++ (writeU32 v ++ writeU32 0) ++
      writeU32 0 ++ writeU32 4 ++ writeU32 8).drop 12 =
      writeU32 0 ++ (writeU32 4 ++ writeU32 8) := by
    rw [show writeU32 v ++ (writeU32 v ++ writeU32 0) ++
        writeU32 0 ++ writeU32 4 ++ writeU32 8 =
        (writeU32 v ++ (writeU32 v ++ writeU32 0)) ++
          (writeU32 0 ++ (writeU32 4 ++ writeU32 8)) from by
      simp [List.append_assoc]]
    rw [show (12 : Nat) =
        (writeU32 v ++ (writeU32 v ++ writeU32 0)).length from by
      simp [writeU32]]
    exact List.drop_left _ _
  rw [show (24 : Nat) - 12 = 12 from rfl, hdrop12,
    readU32_writeU32 0 (by omega) (writeU32 4 ++ writeU32 8)]
  show (do
    let (vpos, rest2) ← readU32 (writeU32 4 ++ writeU32 8)
    let (vlen, _) ← readU32 rest2
    let (payload, _) ← readBytes vlen
      ((writeU32 v ++ (writeU32 v ++ writeU32 0) ++
        writeU32 0 ++ writeU32 4 ++ writeU32 8).drop vpos)
    let (st, iA) ← deserializeRcAt (writeU32 v ++ (writeU32 v ++ writeU32 0) ++
      writeU32 0 ++ writeU32 4 ++ writeU32 8) ⟨[], []⟩ 0
    let (pheap, iP) ← deserializePayload payload
    Except.ok ((st.heap, iA), (pheap, iP))) = .ok (([v], 0), ([v], 0))
  rw [readU32_writeU32 4 (by omega) (writeU32 8)]
  show (do
    let (vlen, _) ← readU32 (writeU32 8)
    let (payload, _) ← readBytes vlen
      ((writeU32 v ++ (writeU32 v ++ writeU32 0) ++
        writeU32 0 ++ writeU32 4 ++ writeU32 8).drop 4)
    let (st, iA) ← deserializeRcAt (writeU32 v ++ (writeU32 v ++ writeU32 0) ++
      writeU32 0 ++ writeU32 4 ++ writeU32 8) ⟨[], []⟩ 0
    let (pheap, iP) ← deserializePayload payload
    Except.ok ((st.heap, iA), (pheap, iP))) = .ok (([v], 0), ([v], 0))
  rw [show readU32 (writeU32 8) = .ok (8, []) from
    by simpa using readU32_writeU32 8 (by omega) []]
  have hdrop4 : (writeU32 v ++ (writeU32 v ++ writeU32 0) ++
      writeU32 0 ++ writeU32 4 ++ writeU32 8).drop 4 =
      (writeU32 v ++ writeU32 0) ++
        (writeU32 0 ++ (writeU32 4 ++ writeU32 8)) := by
    simp only [List.append_assoc]
    rw [List.drop_append_of_le_length (by simp [writeU32])]
    simp [writeU32]
  have hpayload : readBytes 8 ((writeU32 v ++ (writeU32 v ++ writeU32 0) ++
      writeU32 0 ++ writeU32 4 ++ writeU32 8).drop 4) =
      .ok (writeU32 v ++ writeU32 0,
        writeU32 0 ++ (writeU32 4 ++ writeU32 8)) := by
    rw [hdrop4]
    have h8 : (writeU32 v ++ writeU32 0).length = 8 := by simp [writeU32]
    rw [show (8 : Nat) = (writeU32 v ++ writeU32 0).length from h8.symm]
    exact readBytes_exact (writeU32 v ++ writeU32 0)
      (writeU32 0 ++ (writeU32 4 ++ writeU32 8))
  show (do
    let (payload, _) ← readBytes 8
      ((writeU32 v ++ (writeU32 v ++ writeU32 0) ++
        writeU32 0 ++ writeU32 4 ++ writeU32 8).drop 4)
    let (st, iA) ← deserializeRcAt (writeU32 v ++ (writeU32 v ++ writeU32 0) ++
      writeU32 0 ++ writeU32 4 ++ writeU32 8) ⟨[], []⟩ 0
    let (pheap, iP) ← deserializePayload payload
    Except.ok ((st.heap, iA), (pheap, iP))) = .ok (([v], 0), ([v], 0))
  rw [hpayload]
  have houter : deserializeRcAt (writeU32 v ++ (writeU32 v ++ writeU32 0) ++
      writeU32 0 ++ writeU32 4 ++ writeU32 8) ⟨[], []⟩ 0 =
      .ok (⟨[v], [(0, 0)]⟩, 0) := by
    simp only [deserializeRcAt, idLookup, List.drop_zero, List.append_assoc]
    rw [readU32_writeU32 v hv
      (writeU32 v ++ (writeU32 0 ++ (writeU32 0 ++ (writeU32 4 ++ writeU32 8))))]
    rfl
  show (do
    let (st, iA) ← deserializeRcAt (writeU32 v ++ (writeU32 v ++ writeU32 0) ++
      writeU32 0 ++ writeU32 4 ++ writeU32 8) ⟨[], []⟩ 0
    let (pheap, iP) ← deserializePayload (writeU32 v ++ writeU32 0)
    Except.ok ((st.heap, iA), (pheap, iP))) = .ok (([v], 0), ([v], 0))
  rw [houter]
  have hp : deserializePayload (writeU32 v ++ writeU32 0) = .ok ([v], 0) := by
    have hl8 : (writeU32 v ++ writeU32 0).length = 8 := by simp [writeU32]
    simp only [deserializePayload, hl8]
    rw [if_pos (by omega)]
    have hdrp : (writeU32 v ++ writeU32 0).drop 4 = writeU32 0 := by
      rw [show (4 : Nat) = (writeU32 v).length from rfl]
      exact List.drop_left (writeU32 v) (writeU32 0)
    rw [show (8 : Nat) - 4 = 4 from rfl, hdrp,
      show readU32 (writeU32 0) = .ok (0, []) from
        by simpa using readU32_writeU32 0 (by omega) []]
    show (do
      let (st, i) ← deserializeRcAt (writeU32 v ++ writeU32 0) ⟨[], []⟩ 0
      Except.ok (st.heap, i)) = .ok ([v], 0)
    have hrc : deserializeRcAt (writeU32 v ++ writeU32 0) ⟨[], []⟩ 0 =
        .ok (⟨[v], [(0, 0)]⟩, 0) := by
      simp only [deserializeRcAt, idLookup, List.drop_zero]
      rw [readU32_writeU32 v hv (writeU32 0)]
      rfl
    rw [hrc]
    rfl
  rw [hp]
  rfl

/-- Witness for C9 at a concrete identity and value. -/
theorem c9_no_cross_boundary_sharing_witness :
    (serializeOuter ⟨⟨1, 77⟩, ⟨⟨1, 77⟩⟩⟩).length =
      (serializeOuter ⟨⟨1, 77⟩, ⟨⟨2, 77⟩⟩⟩).length ∧
    serializeOuter ⟨⟨1, 77⟩, ⟨⟨1, 77⟩⟩⟩ =
      writeU32 77 ++ (writeU32 77 ++ writeU32 0) ++
        writeU32 0 ++ writeU32 4 ++ writeU32 8 ∧
    deserializeOuter (serializeOuter ⟨⟨1, 77⟩, ⟨⟨1, 77⟩⟩⟩) =
      .ok (([77], 0), ([77], 0)) :=
  c9_no_cross_boundary_sharing 1 77 (by decide)

/-! ## The PathBuf string adapter (`as_map.rs` lines 44-54)

`impl AsStringConverter for std::path::PathBuf` converts with
`self.to_string_lossy().to_string()` on the way out and
`std::path::PathBuf::from(s)` on the way back.  A `PathBuf` is its underlying
byte sequence; a `String` is a sequence of Unicode scalar values.
`to_string_lossy` decodes UTF-8 and substitutes U+FFFD for ill-formed
sequences; `PathBuf::from` stores the string's UTF-8 bytes. -/

/-- A UTF-8 continuation byte, `0x80..=0xBF`. -/
def isCont (b : Nat) : Bool := decide (128 ≤ b) && decide (b ≤ 191)

/-- A Unicode scalar value: below U+110000 and not a surrogate. -/
def validCp (c : Nat) : Prop := c < 1114112 ∧ ¬(55296 ≤ c ∧ c ≤ 57343)

instance (c : Nat) : Decidable (validCp c) := by
  unfold validCp
  infer_instance

/-- UTF-8 encoding of one scalar value. -/
def utf8EncodeChar (c : Nat) : List Nat :=
  if c < 128 then [c]
  else if c < 2048 then [192 + c / 64, 128 + c % 64]
  else if c < 65536 then [224 + c / 4096, 128 + c / 64 % 64, 128 + c % 64]
  else [240 + c / 262144, 128 + c / 4096 % 64, 128 + c / 64 % 64, 128 + c % 64]

/-- UTF-8 encoding of a scalar sequence (how `PathBuf::from` lays a `String`
down as bytes). -/
def utf8Encode : List Nat → List Nat
  | [] => []
  | c :: cs => utf8EncodeChar c ++ utf8Encode cs

/-- One step of lossy UTF-8 decoding: given the first byte and the remaining
bytes, produce the decoded scalar value (U+FFFD = 65533 for ill-formed input:
bad leads, missing or bad continuations, overlong forms, surrogates,
out-of-range values) and the bytes left over. -/
def decodeStep (b : Nat) (rest : List Nat) : Nat × List Nat :=
  if b < 128 then (b, rest)
  else if b < 192 then (65533, rest)
  else if b < 224 then
    match rest with
    | [] => (65533, [])
    | b2 :: rest2 =>
      if isCont b2 then
        if 194 ≤ b then ((b - 192) * 64 + (b2 - 128), rest2)
        else (65533, rest2)
      else (65533, b2 :: rest2)
  else if b < 240 then
    match rest with
    | b2 :: b3 :: rest3 =>
      if isCont b2 && isCont b3 then
        if 2048 ≤ (b - 224) * 4096 + (b2 - 128) * 64 + (b3 - 128) ∧
            ¬(55296 ≤ (b - 224) * 4096 + (b2 - 128) * 64 + (b3 - 128) ∧
              (b - 224) * 4096 + (b2 - 128) * 64 + (b3 - 128) ≤ 57343) then
          ((b - 224) * 4096 + (b2 - 128) * 64 + (b3 - 128), rest3)
        else (65533, rest3)
      else (65533, b2 :: b3 :: rest3)
    | _ => (65533, [])
  else if b < 245 then
    match rest with
    | b2 :: b3 :: b4 :: rest4 =>
      if isCont b2 && isCont b3 && isCont b4 then
        if 65536 ≤ (b - 240) * 262144 + (b2 - 128) * 4096 +
              (b3 - 128) * 64 + (b4 - 128) ∧
            (b - 240) * 262144 + (b2 - 128) * 4096 +
              (b3 - 128) * 64 + (b4 - 128) < 1114112 then
          ((b - 240) * 262144 + (b2 - 128) * 4096 +
            (b3 - 128) * 64 + (b4 - 128), rest4)
        else (65533, rest4)
      else (65533, b2 :: b3 :: b4 :: rest4)
    | _ => (65533, [])
  else (65533, rest)

theorem decodeStep_snd_le (b : Nat) (rest : List Nat) :
    (decodeStep b rest).2.length ≤ rest.length := by
  unfold decodeStep
  rcases rest with _ | ⟨b2, rest2⟩
  · simp only []
    split_ifs <;> simp
  · rcases rest2 with _ | ⟨b3, rest3⟩
    · simp only []
      split_ifs <;> simp [List.length_cons]
    · rcases rest3 with _ | ⟨b4, rest4⟩
      · simp only []
        split_ifs <;> simp [List.length_cons]
      · simp only []
        split_ifs <;> simp [List.length_cons] <;> omega

/-- Lossy UTF-8 decoding of a whole byte sequence (`to_string_lossy`). -/
def utf8DecodeLossy : List Nat → List Nat
  | [] => []
  | b :: rest =>
    (decodeStep b rest).1 :: utf8DecodeLossy (decodeStep b rest).2
termination_by l => l.length
decreasing_by
  simp only [List.length_cons]
  exact Nat.lt_succ_of_le (decodeStep_snd_le _ _)

/-- `AsStringConverter::to_string` for `PathBuf`:
`self.to_string_lossy().to_string()`. -/
def pathbuf_to_string (p : List Nat) : List Nat := utf8DecodeLossy p

/-- `AsStringConverter::from_str` for `PathBuf`: `PathBuf::from(s)` stores the
string's UTF-8 bytes. -/
def pathbuf_from_str (s : List Nat) : List Nat := utf8Encode s

theorem utf8DecodeLossy_nil : utf8DecodeLossy [] = [] := by
  rw [utf8DecodeLossy]

theorem utf8DecodeLossy_cons (b : Nat) (rest : List Nat) :
    utf8DecodeLossy (b :: rest) =
      (decodeStep b rest).1 :: utf8DecodeLossy (decodeStep b rest).2 := by
  rw [utf8DecodeLossy]

theorem utf8DecodeLossy_encodeChar (c : Nat) (h : validCp c) (rest : List Nat) :
    utf8DecodeLossy (utf8EncodeChar c ++ rest) = c :: utf8DecodeLossy rest := by
  obtain ⟨hup, hsurr⟩ := h
  by_cases h1 : c < 128
  · rw [utf8EncodeChar, if_pos h1]
    simp only [List.cons_append, List.nil_append]
    rw [utf8DecodeLossy_cons,
      show decodeStep c rest = (c, rest) from by
        unfold decodeStep; rw [if_pos h1]]
  · by_cases h2 : c < 2048
    · rw [utf8EncodeChar, if_neg h1, if_pos h2]
      simp only [List.cons_append, List.nil_append]
      have hstep : decodeStep (192 + c / 64) ((128 + c % 64) :: rest) =
          (c, rest) := by
        unfold decodeStep
        rw [if_neg (by omega), if_neg (by omega), if_pos (by omega)]
        simp only []
        rw [if_pos (show isCont (128 + c % 64) = true by
            simp only [isCont, Bool.and_eq_true, decide_eq_true_eq]; omega),
          if_pos (by omega)]
        have hval : (192 + c / 64 - 192) * 64 + (128 + c % 64 - 128) = c := by
          omega
        rw [hval]
      rw [utf8DecodeLossy_cons, hstep]
    · by_cases h3 : c < 65536
      · rw [utf8EncodeChar, if_neg h1, if_neg h2, if_pos h3]
        simp only [List.cons_append, List.nil_append]
        have hstep : decodeStep (224 + c / 4096)
            ((128 + c / 64 % 64) :: (128 + c % 64) :: rest) = (c, rest) := by
          unfold decodeStep
          rw [if_neg (by omega), if_neg (by omega), if_neg (by omega),
            if_pos (by omega)]
          simp only []
          rw [if_pos (show (isCont (128 + c / 64 % 64) &&
                isCont (128 + c % 64)) = true by
              simp only [isCont, Bool.and_eq_true, decide_eq_true_eq]; omega),
            if_pos (by constructor <;> omega)]
          have hval : (224 + c / 4096 - 224) * 4096 +
              (128 + c / 64 % 64 - 128) * 64 + (128 + c % 64 - 128) = c := by
            omega
          rw [hval]
        rw [utf8DecodeLossy_cons, hstep]
      · rw [utf8EncodeChar, if_neg h1, if_neg h2, if_neg h3]
        simp only [List.cons_append, List.nil_append]
        have hstep : decodeStep (240 + c / 262144)
            ((128 + c / 4096 % 64) :: (128 + c / 64 % 64) ::
              (128 + c % 64) :: rest) = (c, rest) := by
          unfold decodeStep
          rw [if_neg (by omega), if_neg (by omega), if_neg (by omega),
            if_neg (by omega), if_pos (by omega)]
          simp only []
          rw [if_pos (show (isCont (128 + c / 4096 % 64) &&
                isCont (128 + c / 64 % 64) && isCont (128 + c % 64)) = true by
              simp only [isCont, Bool.and_eq_true, decide_eq_true_eq]; omega),
            if_pos (by constructor <;> omega)]
          have hval : (240 + c / 262144 - 240) * 262144 +
              (128 + c / 4096 % 64 - 128) * 4096 +
              (128 + c / 64 % 64 - 128) * 64 + (128 + c % 64 - 128) = c := by
            omega
          rw [hval]
        rw [utf8DecodeLossy_cons, hstep]

theorem utf8DecodeLossy_encode (cs : List Nat) (h : ∀ c ∈ cs, validCp c) :
    utf8DecodeLossy (utf8Encode cs) = cs := by
  induction cs with
  | nil =>
    rw [show utf8Encode [] = [] from rfl, utf8DecodeLossy_nil]
  | cons c cs ih =>
    rw [utf8Encode, utf8DecodeLossy_encodeChar c (h c (by simp)) (utf8Encode cs),
      ih (fun x hx => h x (by simp [hx]))]

theorem decodeStep_fst_valid (b : Nat) (rest : List Nat) :
    validCp (decodeStep b rest).1 := by
  unfold decodeStep
  rcases rest with _ | ⟨b2, rest2⟩
  · simp only []
    split_ifs <;> (simp only [validCp]; omega)
  · rcases rest2 with _ | ⟨b3, rest3⟩
    · simp only []
      split_ifs <;>
        (simp only [validCp, isCont, Bool.and_eq_true, decide_eq_true_eq] at *;
          omega)
    · rcases rest3 with _ | ⟨b4, rest4⟩
      · simp only []
        split_ifs <;>
          (simp only [validCp, isCont, Bool.and_eq_true, decide_eq_true_eq] at *;
            omega)
      · simp only []
        split_ifs <;>
          (simp only [validCp, isCont, Bool.and_eq_true, decide_eq_true_eq] at *;
            omega)

theorem utf8DecodeLossy_validAux :
    ∀ (n : Nat) (p : List Nat), p.length ≤ n →
    ∀ c ∈ utf8DecodeLossy p, validCp c := by
  intro n
  induction n with
  | zero =>
    intro p hp c hc
    rcases p with _ | ⟨b, rest⟩
    · rw [utf8DecodeLossy_nil] at hc
      simp at hc
    · simp at hp
  | succ n ih =>
    intro p hp c hc
    rcases p with _ | ⟨b, rest⟩
    · rw [utf8DecodeLossy_nil] at hc
      simp at hc
    · simp only [List.length_cons, Nat.add_le_add_iff_right] at hp
      rw [utf8DecodeLossy_cons] at hc
      rcases List.mem_cons.mp hc with rfl | hmem
      · exact decodeStep_fst_valid b rest
      · refine ih (decodeStep b rest).2 ?_ c hmem
        have := decodeStep_snd_le b rest
        omega

theorem utf8DecodeLossy_valid (p : List Nat) :
    ∀ c ∈ utf8DecodeLossy p, validCp c :=
  utf8DecodeLossy_validAux p.length p le_rfl

/-- A byte sequence is valid UTF-8 when it is the encoding of some sequence of
Unicode scalar values. -/
def ValidUTF8 (p : List Nat) : Prop :=
  ∃ cs, (∀ c ∈ cs, validCp c) ∧ utf8Encode cs = p

/-- C10: PathBuf string-adapter round-trip precondition — for every `PathBuf`
whose bytes are valid UTF-8, `from_str(to_string(p)) = p`; for every `PathBuf`
with invalid UTF-8 bytes, the lossy conversion substitutes replacement
characters and the round-trip is not the identity (its result is always valid
UTF-8, which the input was not). -/
theorem c10_pathbuf_lossy :
    (∀ p : List Nat, ValidUTF8 p →
      pathbuf_from_str (pathbuf_to_string p) = p) ∧
    (∀ p : List Nat, ¬ ValidUTF8 p →
      pathbuf_from_str (pathbuf_to_string p) ≠ p) := by
  constructor
  · rintro p ⟨cs, hv, rfl⟩
    simp only [pathbuf_to_string, pathbuf_from_str]
    rw [utf8DecodeLossy_encode cs hv]
  · intro p hnv heq
    exact hnv ⟨utf8DecodeLossy p, utf8DecodeLossy_valid p, heq⟩

theorem not_validUTF8_255 : ¬ ValidUTF8 [255] := by
  rintro ⟨cs, hv, henc⟩
  rcases cs with _ | ⟨c, cs2⟩
  · exact List.noConfusion henc
  · have hvc := hv c (by simp)
    obtain ⟨hup, hsurr⟩ := hvc
    simp only [utf8Encode, utf8EncodeChar] at henc
    split_ifs at henc with h1 h2 h3 <;>
      simp only [List.cons_append, List.cons.injEq, List.append_eq_nil] at henc <;>
      omega

/-- Witness for C10: the ASCII path byte `[104]` round-trips; the invalid
byte `[255]` does not. -/
theorem c10_pathbuf_lossy_witness :
    pathbuf_from_str (pathbuf_to_string [104]) = [104] ∧
    pathbuf_from_str (pathbuf_to_string [255]) ≠ [255] :=
  ⟨c10_pathbuf_lossy.1 [104] ⟨[104], by decide, rfl⟩,
    c10_pathbuf_lossy.2 [255] not_validUTF8_255⟩

end RspackCacheable
